import Mathlib

/-!
Shallow embedding of the Peterson-lock pool of kernel/peterson.c and
kernel/peterson.h, and of the tournament-tree library of
user/libtournament.c, together with proofs about them.

Modelling conventions:
* A pool slot `struct peterson_lock` becomes `PLock`.  The `lk` spinlock
  field is the atomicity granularity of the model (each spinlock-protected
  section of the C code is one atomic step here) and the `name` field is a
  debug-only string, so neither appears as data.
* The global table `ptable` of `NPETERSONLOCKS` entries becomes a
  `List PLock` (length 16 for the real table).
* Syscall arguments fetched with `argint` are `Int`; the C functions
  return `-1` on every failure and a non-negative value on success, which
  the embeddings reproduce as `Int` results.
* The busy-wait loop of `sys_peterson_acquire` releases the slot spinlock
  and yields between rechecks; other contexts may change the slot there.
  The model threads an explicit list `envs : List PLock` of slot states
  observed at each re-entry after a yield; exhausting `envs` while still
  spinning is modelled as `none` (the call has not returned yet).
-/

def NPETERSONLOCKS : Nat := 16

/-- One pool slot: the `active`, `flag[2]` and `turn` fields of
`struct peterson_lock` (kernel/peterson.h lines 10-16). -/
structure PLock where
  active : Bool
  flag0 : Bool
  flag1 : Bool
  turn : Int
deriving DecidableEq, Repr

/-- Read `flag[r]` for a role `r` that validation has pinned to 0 or 1. -/
def PLock.flagAt (p : PLock) (r : Int) : Bool :=
  if r = 0 then p.flag0 else p.flag1

/-- Write `flag[r] = b`. -/
def PLock.setFlag (p : PLock) (r : Int) (b : Bool) : PLock :=
  if r = 0 then { p with flag0 := b } else { p with flag1 := b }

/-- Write `turn = t`. -/
def PLock.setTurn (p : PLock) (t : Int) : PLock :=
  { p with turn := t }

/-- Slot state established by `peterson_init` (peterson.c lines 25-28)
and restored by `peterson_free` (lines 67-70): inactive, flags clear,
turn 0. -/
def initLock : PLock :=
  { active := false, flag0 := false, flag1 := false, turn := 0 }

/-- Slot state written by a successful `peterson_alloc`
(peterson.c lines 44-47): active, flags clear, turn 0. -/
def allocReset : PLock :=
  { active := true, flag0 := false, flag1 := false, turn := 0 }

/-- The table after `peterson_init` (peterson.c lines 17-32). -/
def peterson_init : List PLock :=
  List.replicate NPETERSONLOCKS initLock

/-- Index of the first slot with `active == 0`, if any; this is the slot
`peterson_alloc`-style scans stop at. -/
def firstInactive : List PLock → Option Nat
  | [] => none
  | p :: ps => if p.active = false then some 0 else (firstInactive ps).map (· + 1)

/-- Number of free (inactive) slots in the pool. -/
def freeCount (pool : List PLock) : Nat :=
  pool.countP (fun p => p.active = false)

/-- peterson.c lines 37-55, `peterson_alloc`: scan the table in index
order; at the first inactive slot, mark it active with flags and turn
reset and return its index; `none` models the `-1` of a full table. -/
def peterson_alloc : List PLock → Option (Nat × List PLock)
  | [] => none
  | p :: ps =>
    if p.active = false then
      some (0, allocReset :: ps)
    else
      (peterson_alloc ps).map (fun r => (r.1 + 1, p :: r.2))

/-- peterson.c lines 75-85, `sys_peterson_create`: allocate under the
table lock, returning the new id or -1. -/
def sys_peterson_create (pool : List PLock) : Int × List PLock :=
  match peterson_alloc pool with
  | none => (-1, pool)
  | some (i, pool2) => ((i : Int), pool2)

/-- The busy-wait condition of peterson.c line 124:
`pl->flag[1 - role] == 1 && pl->turn == (1 - role)`. -/
def waitCond (pl : PLock) (role : Int) : Bool :=
  pl.flagAt (1 - role) && decide (pl.turn = 1 - role)

/-- peterson.c lines 124-144: the wait loop of `sys_peterson_acquire`
plus the final activity check, starting from the currently observed slot
state `cur`.  While the wait condition holds the code checks for a
concurrent destroy, releases the slot spinlock and yields; the next
element of `envs` is the slot state observed after re-acquiring the
spinlock.  `none` means `envs` ran out with the call still spinning. -/
def acquireGo (role : Int) : PLock → List PLock → Option (Int × PLock)
  | cur, envs =>
    if waitCond cur role then
      if cur.active = false then
        some (-1, cur)
      else
        match envs with
        | [] => none
        | e :: es => acquireGo role e es
    else
      if cur.active = false then some (-1, cur) else some (0, cur)

/-- peterson.c lines 88-151, `sys_peterson_acquire`: validate the handle
and role, fail on an inactive slot, otherwise set `flag[role] = 1`, then
`turn = 1 - role`, then run the wait loop.  The `none` branch of `get?`
is unreachable for the real 16-entry table. -/
def sys_peterson_acquire (pool : List PLock) (lock_id role : Int)
    (envs : List PLock) : Option (Int × List PLock) :=
  if lock_id < 0 ∨ (NPETERSONLOCKS : Int) ≤ lock_id ∨ (role ≠ 0 ∧ role ≠ 1) then
    some (-1, pool)
  else
    match pool.get? lock_id.toNat with
    | none => some (-1, pool)
    | some pl =>
      if pl.active = false then
        some (-1, pool)
      else
        match acquireGo role ((pl.setFlag role true).setTurn (1 - role)) envs with
        | none => none
        | some (r, plF) => some (r, pool.set lock_id.toNat plF)

/-- peterson.c lines 154-187, `sys_peterson_release`: validate, fail on
an inactive slot, otherwise clear `flag[role]` and return 0.  There is
no waiting loop. -/
def sys_peterson_release (pool : List PLock) (lock_id role : Int) :
    Int × List PLock :=
  if lock_id < 0 ∨ (NPETERSONLOCKS : Int) ≤ lock_id ∨ (role ≠ 0 ∧ role ≠ 1) then
    (-1, pool)
  else
    match pool.get? lock_id.toNat with
    | none => (-1, pool)
    | some pl =>
      if pl.active = false then
        (-1, pool)
      else
        (0, pool.set lock_id.toNat (pl.setFlag role false))

/-- peterson.c lines 59-72, `peterson_free`: reset the slot to the
inactive state.  The panic guard of the C code is unreachable because
`sys_peterson_destroy` only calls it on a validated active slot. -/
def peterson_free (_pl : PLock) : PLock :=
  initLock

/-- peterson.c lines 190-225, `sys_peterson_destroy`: validate the
handle, fail on an already-inactive slot with nothing changed, otherwise
reset the slot via `peterson_free`. -/
def sys_peterson_destroy (pool : List PLock) (lock_id : Int) :
    Int × List PLock :=
  if lock_id < 0 ∨ (NPETERSONLOCKS : Int) ≤ lock_id then
    (-1, pool)
  else
    match pool.get? lock_id.toNat with
    | none => (-1, pool)
    | some pl =>
      if pl.active = false then
        (-1, pool)
      else
        (0, pool.set lock_id.toNat (peterson_free pl))

/-- Outcome of `n` sequential `sys_peterson_create` calls: the list of
returned ids in call order, and the final pool. -/
def createSeq : Nat → List PLock → List Int × List PLock
  | 0, pool => ([], pool)
  | n + 1, pool =>
    let r := sys_peterson_create pool
    let rest := createSeq n r.2
    (r.1 :: rest.1, rest.2)

/-! Spec-level description of the acquire protocol, written from the
words of the specification (sections 4.2 and 6) for comparison with the
code-level `sys_peterson_acquire`.  The specification distinguishes
error kinds; the kernel code collapses them all to -1. -/

/-- Error kinds named by the specification for `acquire`. -/
inductive AcqErr where
  | invalidArgument
  | lockInactive
  | destroyedWhileWaiting
deriving DecidableEq, Repr

/-- Result of the spec-level acquire. -/
inductive AcqRes where
  | ok
  | err (e : AcqErr)
deriving DecidableEq, Repr

/-- The single -1 sentinel the kernel maps every error kind to. -/
def acqResToInt : AcqRes → Int
  | AcqRes.ok => 0
  | AcqRes.err _ => -1

/-- Spec-level wait loop, from the spec text: repeatedly check the
condition (interest of the other role AND turn equals the other role);
while it holds, yield and re-check, aborting with
`destroyedWhileWaiting` at any recheck where the slot is observed
inactive; when the condition becomes false, perform one final check
that the slot is still active and only then return ok, else
`destroyedWhileWaiting`. -/
def specWaitLoop (role : Int) : PLock → List PLock → Option (AcqRes × PLock)
  | cur, envs =>
    if waitCond cur role then
      match envs with
      | [] => none
      | e :: es =>
        if e.active = false then
          some (AcqRes.err AcqErr.destroyedWhileWaiting, e)
        else
          specWaitLoop role e es
    else
      if cur.active then
        some (AcqRes.ok, cur)
      else
        some (AcqRes.err AcqErr.destroyedWhileWaiting, cur)

/-- Spec-level acquire: a role other than 0 or 1, or a handle outside
the 16-slot range, yields `invalidArgument`; an inactive slot yields
`lockInactive`, in both cases with no lock state modified; otherwise
set interest of the role to true, then set turn to the other role, then
run the wait loop.  The `none` branch of `get?` cannot arise for the
16-entry table the spec describes. -/
def peterson_acquire_spec (pool : List PLock) (h role : Int)
    (envs : List PLock) : Option (AcqRes × List PLock) :=
  if ¬(role = 0 ∨ role = 1) ∨ ¬(0 ≤ h ∧ h < 16) then
    some (AcqRes.err AcqErr.invalidArgument, pool)
  else
    match pool.get? h.toNat with
    | none => some (AcqRes.err AcqErr.lockInactive, pool)
    | some pl =>
      if pl.active = false then
        some (AcqRes.err AcqErr.lockInactive, pool)
      else
        (specWaitLoop role ((pl.setFlag role true).setTurn (1 - role)) envs).map
          (fun rp => (rp.1, pool.set h.toNat rp.2))

/-! Embedding of the tournament-tree library, user/libtournament.c.
Process spawning (`fork`) is an external collaborator (spec section 6)
and is not modelled; the embeddings below cover the initiating
process.  The `malloc` of the lock-id array and the null-pointer
defensive checks are memory-layout details with no data content and are
noted where skipped. -/

/-- libtournament.c lines 104-111: the shift-count loop of
`get_log2_if_power_of_2`, with an explicit fuel so the recursion is
structural; each iteration halves `temp`, so any fuel of at least
`temp` iterations is enough to reach the exit condition. -/
def log2_loopFuel : Nat → Nat → Nat
  | 0, _ => 0
  | fuel + 1, temp =>
    if temp ≤ 1 then 0 else log2_loopFuel fuel (temp >>> 1) + 1

/-- The C loop `while (temp > 1) shift and count`, run with sufficient
fuel. -/
def log2_loop (temp : Nat) : Nat :=
  log2_loopFuel temp temp

/-- libtournament.c lines 91-112, `get_log2_if_power_of_2`: -1 for
non-positive n, 0 for n = 1, -1 when `n AND (n-1)` is nonzero, else the
shift count.  For positive n the C bitwise test is computed on the
non-negative value, here via `toNat`. -/
def get_log2_if_power_of_2 (n : Int) : Int :=
  if n ≤ 0 then -1
  else if n = 1 then 0
  else if n.toNat &&& (n.toNat - 1) ≠ 0 then -1
  else (log2_loop n.toNat : Int)

/-- libtournament.c lines 142-149: the allocation loop of
`tournament_create`, calling `peterson_create` once per needed lock; on
the first failure the loop aborts (result `none`) keeping the partially
allocated pool, with no cleanup, as in the source. -/
def allocLocksLoop : Nat → List PLock → Option (List Int) × List PLock
  | 0, pool => (some [], pool)
  | n + 1, pool =>
    let r := sys_peterson_create pool
    if r.1 < 0 then
      (none, r.2)
    else
      let rest := allocLocksLoop n r.2
      match rest.1 with
      | none => (none, rest.2)
      | some ids => (some (r.1 :: ids), rest.2)

/-- libtournament.c lines 118-177, `tournament_create`, lock-allocation
phase: reject n above 16, reject when `get_log2_if_power_of_2` fails,
otherwise allocate n-1 locks; on success the initiating process gets
tournament id 0.  The fork loop that spawns the other participants is
the external spawn collaborator and the malloc'd id array is represented
by the pool effects themselves. -/
def tournament_create (processes : Int) (pool : List PLock) :
    Int × List PLock :=
  if 16 < processes then
    (-1, pool)
  else if get_log2_if_power_of_2 processes = -1 then
    (-1, pool)
  else
    let r := allocLocksLoop (processes - 1).toNat pool
    match r.1 with
    | none => (-1, r.2)
    | some _ => (0, r.2)

/-- libtournament.c lines 201-211 and 252-259: the per-level index
arithmetic shared by `tournament_acquire` and `tournament_release`.
Given the level count L, the participant id and a level l, returns the
BFS array index of the level-l lock and the role at that level. -/
def tournament_step (L my_id l : Nat) : Nat × Nat :=
  let role_bit_position := L - 1 - l
  let role_at_level := (my_id >>> role_bit_position) &&& 1
  let lock_group_shift := L - l
  let lock_idx_within_level := my_id >>> lock_group_shift
  let offset_for_level_nodes := (1 <<< l) - 1
  (lock_idx_within_level + offset_for_level_nodes, role_at_level)

/-- The traversal of `tournament_acquire`/`tournament_release` over a
given list of levels, recording the (array index, role) pair of each
Peterson call in call order; `none` models the -1 of the out-of-bounds
guard (the C guard also tests `array_idx < 0`, vacuous over Nat). -/
def traceGo (L my_id numLocks : Nat) : List Nat → Option (List (Nat × Nat))
  | [] => some []
  | l :: ls =>
    let s := tournament_step L my_id l
    if numLocks ≤ s.1 then
      none
    else
      (traceGo L my_id numLocks ls).map (fun t => s :: t)

/-- libtournament.c lines 199-227: `tournament_acquire` walks levels
L-1 down to 0 (leaf to root). -/
def tournament_acquire_trace (L my_id numLocks : Nat) :
    Option (List (Nat × Nat)) :=
  traceGo L my_id numLocks (List.range L).reverse

/-- libtournament.c lines 251-275: `tournament_release` walks levels 0
up to L-1 (root to leaf). -/
def tournament_release_trace (L my_id numLocks : Nat) :
    Option (List (Nat × Nat)) :=
  traceGo L my_id numLocks (List.range L)

/-- The traversal loop of `tournament_acquire`/`tournament_release` as
executed, libtournament.c lines 199-227 and 251-275: per level, the
bounds guard returns -1, a negative result from the underlying Peterson
call returns -1, otherwise the walk continues; reaching the end returns
0.  `res idx role` is the environment-dependent result of the Peterson
call on the lock at BFS index `idx`. -/
def tournamentGo (L my_id numLocks : Nat) (res : Nat → Nat → Int) :
    List Nat → Int
  | [] => 0
  | l :: ls =>
    let s := tournament_step L my_id l
    if numLocks ≤ s.1 then
      -1
    else if res s.1 s.2 < 0 then
      -1
    else
      tournamentGo L my_id numLocks res ls

/-- libtournament.c lines 181-229, `tournament_acquire`: the guard
checks on `my_id` and the process count, the trivial n = 1 case, then
the leaf-to-root walk.  The null-array defensive check is a pointer
test with no counterpart in the model. -/
def tournament_acquire_run (my_id nProcs : Int) (L numLocks : Nat)
    (res : Nat → Nat → Int) : Int :=
  if my_id = -1 then -1
  else if nProcs ≤ 0 then -1
  else if nProcs = 1 then 0
  else tournamentGo L my_id.toNat numLocks res (List.range L).reverse

/-- libtournament.c lines 233-277, `tournament_release`: same guards,
then the root-to-leaf walk. -/
def tournament_release_run (my_id nProcs : Int) (L numLocks : Nat)
    (res : Nat → Nat → Int) : Int :=
  if my_id = -1 then -1
  else if nProcs ≤ 0 then -1
  else if nProcs = 1 then 0
  else tournamentGo L my_id.toNat numLocks res (List.range L)

/-! Transition system for claim C1: two contexts repeatedly running the
acquire and release protocol of `sys_peterson_acquire` and
`sys_peterson_release` with roles 0 and 1 on one active pool slot, with
no concurrent destroy.  The atomicity granularity is the slot spinlock
`pl->lk`: each spinlock-protected section of the C code is one step.  A
context is `idle` (before its next acquire call or after release),
`waiting` (it has published flag and turn, observed the wait condition
true and yielded; peterson.c lines 124-137) or `crit` (its acquire
returned 0 and it has not yet completed release: it believes it holds
the lock). -/

inductive PC where
  | idle
  | waiting
  | crit
deriving DecidableEq, Repr

/-- Joint state of the slot fields manipulated by the protocol and the
two contexts' positions.  The slot stays active throughout, and the only
turn values ever written are 0 and 1, so the turn is a `Fin 2` here and
is injected into the `Int` field of `PLock` by `toLock`. -/
structure PState where
  flag0 : Bool
  flag1 : Bool
  turn : Fin 2
  pc0 : PC
  pc1 : PC
deriving DecidableEq, Repr

def otherRole (r : Fin 2) : Fin 2 := if r = 0 then 1 else 0

def pcOf (s : PState) (r : Fin 2) : PC := if r = 0 then s.pc0 else s.pc1

def setPcS (s : PState) (r : Fin 2) (c : PC) : PState :=
  if r = 0 then { s with pc0 := c } else { s with pc1 := c }

def setFlagS (s : PState) (r : Fin 2) (b : Bool) : PState :=
  if r = 0 then { s with flag0 := b } else { s with flag1 := b }

/-- The active pool slot a protocol state denotes, for re-use of the
code-level `waitCond`, `PLock.setFlag` and `PLock.setTurn`. -/
def toLock (s : PState) : PLock :=
  { active := true, flag0 := s.flag0, flag1 := s.flag1,
    turn := ((s.turn : Nat) : Int) }

/-- One atomic step of role r.
From `idle`: the entry section of `sys_peterson_acquire` (lines
106-137): set flag of the role, set turn to the other role, evaluate the
wait condition (`waitCond`, line 124); if it holds, release the spinlock
and yield (enter `waiting`), else pass the final activity check (the
slot is active) and return 0 (enter `crit`).
From `waiting`: one re-check after a yield (lines 133-137): if the
condition still holds, yield again, else return 0 and enter `crit`.
From `crit`: the body of `sys_peterson_release` (line 181): clear the
role's flag and go back to `idle`. -/
def stepRole (r : Fin 2) (s : PState) : PState :=
  match pcOf s r with
  | PC.idle =>
    let s1 := { setFlagS s r true with turn := otherRole r }
    if waitCond (toLock s1) ((r : Nat) : Int) then setPcS s1 r PC.waiting
    else setPcS s1 r PC.crit
  | PC.waiting =>
    if waitCond (toLock s) ((r : Nat) : Int) then s else setPcS s r PC.crit
  | PC.crit =>
    setPcS (setFlagS s r false) r PC.idle

/-- Freshly allocated slot (flags clear, turn 0), both contexts idle. -/
def initPState : PState :=
  { flag0 := false, flag1 := false, turn := 0, pc0 := PC.idle, pc1 := PC.idle }

/-- States reachable under an arbitrary interleaving of the two
contexts' steps. -/
inductive ReachP : PState → Prop where
  | init : ReachP initPState
  | step (r : Fin 2) {s : PState} : ReachP s → ReachP (stepRole r s)

/-- Inductive invariant: a context past `idle` has its flag set; the two
contexts are never both in `crit`; and a context in `crit` while the
other spins owns the turn. -/
def petersonInv (s : PState) : Bool :=
  (decide (s.pc0 = PC.idle) || s.flag0) &&
  (decide (s.pc1 = PC.idle) || s.flag1) &&
  !(decide (s.pc0 = PC.crit) && decide (s.pc1 = PC.crit)) &&
  (!(decide (s.pc0 = PC.crit) && decide (s.pc1 = PC.waiting)) ||
    decide (s.turn = 0)) &&
  (!(decide (s.pc1 = PC.crit) && decide (s.pc0 = PC.waiting)) ||
    decide (s.turn = 1))

lemma peterson_alloc_eq (pool : List PLock) :
    peterson_alloc pool
      = (firstInactive pool).map (fun i => (i, pool.set i allocReset)) := by
  induction pool with
  | nil => rfl
  | cons p ps ih =>
    by_cases hp : p.active = false
    · simp [peterson_alloc, firstInactive, hp]
    · simp only [peterson_alloc, firstInactive, hp, if_neg, ih]
      cases hfi : firstInactive ps <;> simp [List.set]

lemma firstInactive_none_iff (pool : List PLock) :
    firstInactive pool = none ↔ ∀ p ∈ pool, p.active = true := by
  induction pool with
  | nil => simp [firstInactive]
  | cons p ps ih =>
    by_cases hp : p.active = false
    · simp [firstInactive, hp, ih]
    · simp only [Bool.not_eq_false] at hp
      simp [firstInactive, hp, ih]

lemma firstInactive_spec (pool : List PLock) (i : Nat)
    (h : firstInactive pool = some i) :
    ∃ pl, pool.get? i = some pl ∧ pl.active = false ∧
      freeCount (pool.set i allocReset) + 1 = freeCount pool := by
  induction pool generalizing i with
  | nil => simp [firstInactive] at h
  | cons p ps ih =>
    by_cases hp : p.active = false
    · simp [firstInactive, hp] at h
      subst h
      refine ⟨p, rfl, hp, ?_⟩
      simp [freeCount, List.countP_cons, hp, allocReset]
    · simp [firstInactive, hp, Option.map_eq_some'] at h
      obtain ⟨j, hj, rfl⟩ := h
      obtain ⟨pl, h1, h2, h3⟩ := ih j hj
      refine ⟨pl, by simpa using h1, h2, ?_⟩
      simp [freeCount, List.countP_cons, hp] at h3 ⊢
      omega

/-- C5: the pool has exactly 16 slots; `sys_peterson_create` scans in
index order and returns the index of the first slot with `active =
false`, marking exactly that slot active with interest flags and turn
reset to 0 and no other slot modified (`List.set`); it returns -1 with
the pool unchanged precisely when every slot is active; and 17
sequential create calls on a fresh pool return 0..15 and then -1. -/
theorem create_scans_first_free_and_pool_exhaustion :
    peterson_init.length = 16 ∧
    (∀ pool : List PLock,
      (∀ j, firstInactive pool = some j →
        sys_peterson_create pool = ((j : Int), pool.set j allocReset)) ∧
      (sys_peterson_create pool = (-1, pool) ↔ ∀ p ∈ pool, p.active = true)) ∧
    (createSeq 17 peterson_init).1
      = [0, 1, 2, 3, 4, 5, 6, 7, 8, 9, 10, 11, 12, 13, 14, 15, -1] := by
  refine ⟨by decide, ?_, by decide⟩
  intro pool
  constructor
  · intro j hj
    simp [sys_peterson_create, peterson_alloc_eq, hj]
  · rw [← firstInactive_none_iff]
    cases hfi : firstInactive pool with
    | none => simp [sys_peterson_create, peterson_alloc_eq, hfi]
    | some j =>
      simp [sys_peterson_create, peterson_alloc_eq, hfi]

/-- Witness for the exhaustion claim: on the fresh pool the first free
slot is slot 0 and creation takes it. -/
theorem create_scans_first_free_witness :
    sys_peterson_create peterson_init = (0, peterson_init.set 0 allocReset) :=
  (create_scans_first_free_and_pool_exhaustion.2.1 peterson_init).1 0 (by decide)

/-- C6: `sys_peterson_destroy` rejects an out-of-range handle with no
state modified, rejects an already-inactive slot with the whole pool
unchanged, and on an active slot returns 0 leaving exactly that slot
reset to the inactive state (flags false, turn 0, the `initLock` reset)
with every other slot unchanged. -/
theorem destroy_semantics :
    ∀ (pool : List PLock) (h : Int),
      ((h < 0 ∨ (16 : Int) ≤ h) → sys_peterson_destroy pool h = (-1, pool)) ∧
      (∀ pl, pool.get? h.toNat = some pl → pl.active = false →
        sys_peterson_destroy pool h = (-1, pool)) ∧
      (∀ pl, 0 ≤ h → h < 16 → pool.get? h.toNat = some pl → pl.active = true →
        sys_peterson_destroy pool h = (0, pool.set h.toNat initLock)) := by
  intro pool h
  have h16 : (NPETERSONLOCKS : Int) = 16 := rfl
  refine ⟨fun hr => ?_, fun pl hget hact => ?_, fun pl h0 hlt hget hact => ?_⟩
  · rw [sys_peterson_destroy, h16, if_pos hr]
  · by_cases hr : h < 0 ∨ (16 : Int) ≤ h
    · rw [sys_peterson_destroy, h16, if_pos hr]
    · rw [sys_peterson_destroy, h16, if_neg hr, hget]
      simp [hact]
  · have hr : ¬(h < 0 ∨ (16 : Int) ≤ h) := by omega
    rw [sys_peterson_destroy, h16, if_neg hr, hget]
    simp [hact, peterson_free]

/-- Witness for the destroy claim: destroying slot 0 of a pool whose
slot 0 is active resets exactly that slot. -/
theorem destroy_semantics_witness :
    sys_peterson_destroy (peterson_init.set 0 allocReset) 0
      = (0, (peterson_init.set 0 allocReset).set 0 initLock) :=
  (destroy_semantics (peterson_init.set 0 allocReset) 0).2.2 allocReset
    (by decide) (by decide) (by decide) (by decide)

/-- C8: on a valid handle, valid role and active slot,
`sys_peterson_release` returns 0 and clears exactly `flag[role]`,
leaving the slot's turn, the other role's interest flag, the active bit
and every other pool slot unchanged, with no waiting loop; on an invalid
role, out-of-range handle or inactive slot it returns -1 with the pool
unchanged. -/
theorem release_frame :
    ∀ (pool : List PLock) (h role : Int),
      ((h < 0 ∨ (16 : Int) ≤ h ∨ (role ≠ 0 ∧ role ≠ 1)) →
        sys_peterson_release pool h role = (-1, pool)) ∧
      (∀ pl, pool.get? h.toNat = some pl → pl.active = false →
        sys_peterson_release pool h role = (-1, pool)) ∧
      (∀ pl, 0 ≤ h → h < 16 → (role = 0 ∨ role = 1) →
        pool.get? h.toNat = some pl → pl.active = true →
        sys_peterson_release pool h role
            = (0, pool.set h.toNat (pl.setFlag role false)) ∧
          (pl.setFlag role false).active = pl.active ∧
          (pl.setFlag role false).turn = pl.turn ∧
          (pl.setFlag role false).flagAt (1 - role) = pl.flagAt (1 - role) ∧
          (pl.setFlag role false).flagAt role = false) := by
  intro pool h role
  have h16 : (NPETERSONLOCKS : Int) = 16 := rfl
  refine ⟨fun hr => ?_, fun pl hget hact => ?_, fun pl h0 hlt hrole hget hact => ?_⟩
  · rw [sys_peterson_release, h16, if_pos hr]
  · by_cases hr : h < 0 ∨ (16 : Int) ≤ h ∨ (role ≠ 0 ∧ role ≠ 1)
    · rw [sys_peterson_release, h16, if_pos hr]
    · rw [sys_peterson_release, h16, if_neg hr, hget]
      simp [hact]
  · have hr : ¬(h < 0 ∨ (16 : Int) ≤ h ∨ (role ≠ 0 ∧ role ≠ 1)) := by omega
    rw [sys_peterson_release, h16, if_neg hr, hget]
    rcases hrole with hrole | hrole <;>
      simp [hact, hrole, PLock.setFlag, PLock.flagAt]

/-- Witness for the release-frame claim: releasing role 1 on an active
slot 0 clears only that flag. -/
theorem release_frame_witness :
    sys_peterson_release (peterson_init.set 0 allocReset) 0 1
        = (0, (peterson_init.set 0 allocReset).set 0 (allocReset.setFlag 1 false)) ∧
      (allocReset.setFlag 1 false).active = allocReset.active ∧
      (allocReset.setFlag 1 false).turn = allocReset.turn ∧
      (allocReset.setFlag 1 false).flagAt (1 - 1) = allocReset.flagAt (1 - 1) ∧
      (allocReset.setFlag 1 false).flagAt 1 = false :=
  (release_frame (peterson_init.set 0 allocReset) 0 1).2.2 allocReset
    (by decide) (by decide) (Or.inr rfl) (by decide) (by decide)

lemma acquireGo_inactive (role : Int) (cur : PLock) (envs : List PLock)
    (h : cur.active = false) :
    acquireGo role cur envs = some (-1, cur) := by
  rw [acquireGo.eq_def]
  by_cases hw : waitCond cur role = true <;> simp [hw, h]

lemma acquireGo_refines (role : Int) :
    ∀ (envs : List PLock) (cur : PLock), cur.active = true →
      acquireGo role cur envs
        = (specWaitLoop role cur envs).map (fun rp => (acqResToInt rp.1, rp.2)) := by
  intro envs
  induction envs with
  | nil =>
    intro cur hact
    rw [acquireGo.eq_def, specWaitLoop.eq_def]
    by_cases hw : waitCond cur role = true <;> simp [hw, hact, acqResToInt]
  | cons e es ih =>
    intro cur hact
    rw [acquireGo.eq_def, specWaitLoop.eq_def]
    by_cases hw : waitCond cur role = true
    · by_cases he : e.active = false
      · simp [hw, hact, he, acquireGo_inactive role e es he, acqResToInt]
      · simp only [Bool.not_eq_false] at he
        simp [hw, hact, he, ih e he]
    · simp [hw, hact, acqResToInt]

/-- C2: the kernel acquire path `sys_peterson_acquire` is exactly the
protocol the specification describes: validation of role and handle
(invalid-argument), the inactive-slot check (lock-inactive), setting
interest then turn, the wait loop with yields, destroy detection at
rechecks, and the final activity check, with every error collapsed to
the -1 sentinel and errors leaving the pool unmodified. -/
theorem acquire_refines_spec_protocol :
    ∀ (pool : List PLock) (h role : Int) (envs : List PLock),
      sys_peterson_acquire pool h role envs
        = (peterson_acquire_spec pool h role envs).map
            (fun rp => (acqResToInt rp.1, rp.2)) := by
  intro pool h role envs
  have h16 : (NPETERSONLOCKS : Int) = 16 := rfl
  by_cases hv : h < 0 ∨ (16 : Int) ≤ h ∨ (role ≠ 0 ∧ role ≠ 1)
  · have hv2 : ¬(role = 0 ∨ role = 1) ∨ ¬(0 ≤ h ∧ h < 16) := by omega
    rw [sys_peterson_acquire, h16, if_pos hv, peterson_acquire_spec, if_pos hv2]
    simp [acqResToInt]
  · have hv2 : ¬(¬(role = 0 ∨ role = 1) ∨ ¬(0 ≤ h ∧ h < 16)) := by omega
    rw [sys_peterson_acquire, h16, if_neg hv, peterson_acquire_spec, if_neg hv2]
    cases hget : pool.get? h.toNat with
    | none => simp [acqResToInt]
    | some pl =>
      by_cases hact : pl.active = false
      · simp [hact, acqResToInt]
      · simp only [Bool.not_eq_false] at hact
        have hact2 : ((pl.setFlag role true).setTurn (1 - role)).active = true := by
          simp [PLock.setFlag, PLock.setTurn]
          by_cases hr : role = 0 <;> simp [hr, hact]
        simp only [hact, Bool.true_eq_false, if_false,
          acquireGo_refines role envs _ hact2]
        cases specWaitLoop role ((pl.setFlag role true).setTurn (1 - role)) envs with
        | none => simp
        | some rp => simp

example : get_log2_if_power_of_2 8 = 3 := by decide

example : get_log2_if_power_of_2 12 = -1 := by decide

example : get_log2_if_power_of_2 1 = 0 := by decide

example : tournament_acquire_trace 2 0 3 = some [(1, 0), (0, 0)] := by decide

example : tournament_release_trace 2 0 3 = some [(0, 0), (1, 0)] := by decide

example : tournament_create 3 peterson_init = (-1, peterson_init) := by decide

example : (tournament_create 4 peterson_init).1 = 0 := by decide

example : freeCount (tournament_create 4 peterson_init).2 = 13 := by decide

/-- C3: for any tournament size N = 2 ^ L with 2 ≤ N ≤ 16 and any
participant id below N, the acquire walk of `tournament_acquire` visits
the levels L-1 down to 0 and at each level l calls the Peterson acquire
at array index (self_id >>> (L-l)) + (2 ^ l - 1) with role equal to bit
(L-1-l) of self_id; in particular the out-of-bounds guard never fires
on the N-1-entry lock array. -/
theorem tournament_acquire_traversal_formula :
    ∀ (L N self_id : Nat), N = 2 ^ L → 2 ≤ N → N ≤ 16 → self_id < N →
      tournament_acquire_trace L self_id (N - 1)
        = some ((List.range L).reverse.map
            (fun l => ((self_id >>> (L - l)) + (2 ^ l - 1),
                       (self_id >>> (L - 1 - l)) &&& 1))) := by
  intro L N self_id hN h2 h16 hs
  subst hN
  have hL4 : L ≤ 4 := by
    by_contra hgt
    push_neg at hgt
    have h32 : 2 ^ 5 ≤ 2 ^ L := Nat.pow_le_pow_right (by omega) hgt
    omega
  have hL1 : 1 ≤ L := by
    by_contra h0
    push_neg at h0
    interval_cases L
    omega
  clear h2 h16
  interval_cases L <;> revert self_id <;> decide

/-- Witness for the traversal-formula claim at N = 4, participant 3. -/
theorem tournament_acquire_traversal_formula_witness :
    tournament_acquire_trace 2 3 3
      = some ((List.range 2).reverse.map
          (fun l => ((3 >>> (2 - l)) + (2 ^ l - 1), (3 >>> (2 - 1 - l)) &&& 1))) :=
  tournament_acquire_traversal_formula 2 4 3 (by decide) (by decide) (by decide)
    (by decide)

/-- C4 counterexample: the acquire calls are made leaf level first, so
for N = 4 participant 0's call order is [(1,0),(0,0)], not the claimed
[(0,0),(1,0)]. -/
theorem tournament_n4_claimed_acquire_order_false :
    tournament_acquire_trace 2 0 3 = some [(1, 0), (0, 0)] ∧
    tournament_acquire_trace 2 0 3 ≠ some [(0, 0), (1, 0)] := by
  decide

/-- C4 (amended): for N = 4, participant 0's acquire call sequence is
[(1,0),(0,0)] and participant 3's is [(2,1),(0,1)]; each of the four
participants' release sequence is the exact reverse of its acquire
sequence. -/
theorem tournament_n4_traversal :
    tournament_acquire_trace 2 0 3 = some [(1, 0), (0, 0)] ∧
    tournament_acquire_trace 2 3 3 = some [(2, 1), (0, 1)] ∧
    tournament_release_trace 2 0 3
      = (tournament_acquire_trace 2 0 3).map List.reverse ∧
    tournament_release_trace 2 1 3
      = (tournament_acquire_trace 2 1 3).map List.reverse ∧
    tournament_release_trace 2 2 3
      = (tournament_acquire_trace 2 2 3).map List.reverse ∧
    tournament_release_trace 2 3 3
      = (tournament_acquire_trace 2 3 3).map List.reverse := by
  decide

/-- C9: for every validly created tournament (N = 2 ^ L, 2 ≤ N ≤ 16),
participant id and level, the computed array index stays within the
N-1-entry lock array (at most N - 2), so the out-of-bounds error branch
of both traversals is unreachable: both traces are defined. -/
theorem tournament_index_bounds :
    ∀ (L N self_id l : Nat), N = 2 ^ L → 2 ≤ N → N ≤ 16 → self_id < N → l < L →
      (tournament_step L self_id l).1 ≤ N - 2 ∧
      (tournament_acquire_trace L self_id (N - 1)).isSome = true ∧
      (tournament_release_trace L self_id (N - 1)).isSome = true := by
  intro L N self_id l hN h2 h16 hs hl
  subst hN
  have hL4 : L ≤ 4 := by
    by_contra hgt
    push_neg at hgt
    have h32 : 2 ^ 5 ≤ 2 ^ L := Nat.pow_le_pow_right (by omega) hgt
    omega
  have hL1 : 1 ≤ L := by
    by_contra h0
    push_neg at h0
    interval_cases L
    omega
  clear h2 h16
  interval_cases L <;> revert hl <;> revert l <;> revert self_id <;> decide

/-- Witness for the index-bounds claim at N = 16, participant 13,
level 2. -/
theorem tournament_index_bounds_witness :
    (tournament_step 4 13 2).1 ≤ 16 - 2 ∧
    (tournament_acquire_trace 4 13 15).isSome = true ∧
    (tournament_release_trace 4 13 15).isSome = true :=
  tournament_index_bounds 4 16 13 2 (by decide) (by decide) (by decide)
    (by decide) (by decide)

lemma firstInactive_of_freeCount (pool : List PLock)
    (h : 0 < freeCount pool) : ∃ j, firstInactive pool = some j := by
  cases hfi : firstInactive pool with
  | some j => exact ⟨j, rfl⟩
  | none =>
    exfalso
    have hall := (firstInactive_none_iff pool).mp hfi
    have hz : freeCount pool = 0 := by
      simp only [freeCount, List.countP_eq_zero]
      intro p hp
      simp [hall p hp]
    omega

lemma allocLocksLoop_spec :
    ∀ (k : Nat) (pool : List PLock), k ≤ freeCount pool →
      ∃ ids, (allocLocksLoop k pool).1 = some ids ∧ ids.length = k ∧
        freeCount (allocLocksLoop k pool).2 + k = freeCount pool := by
  intro k
  induction k with
  | zero => exact fun pool _ => ⟨[], rfl, rfl, rfl⟩
  | succ k ih =>
    intro pool hk
    obtain ⟨j, hj⟩ := firstInactive_of_freeCount pool (by omega)
    obtain ⟨pl, hget, hact, hfc⟩ := firstInactive_spec pool j hj
    have hcreate : sys_peterson_create pool = ((j : Int), pool.set j allocReset) := by
      simp [sys_peterson_create, peterson_alloc_eq, hj]
    obtain ⟨ids, h1, h2, h3⟩ := ih (pool.set j allocReset) (by omega)
    simp only [allocLocksLoop, hcreate]
    have hneg : ¬((j : Int) < 0) := by omega
    rw [if_neg hneg]
    rcases hrest : allocLocksLoop k (pool.set j allocReset) with ⟨o, pool2⟩
    rw [hrest] at h1 h3
    simp only at h1 h3
    subst h1
    refine ⟨(j : Int) :: ids, rfl, by simp [h2], ?_⟩
    show freeCount pool2 + (k + 1) = freeCount pool
    omega

/-- C7: `tournament_create` rejects every n that is non-positive, above
16, or not a power of two, allocating zero locks (the pool is returned
unchanged); in particular 3, 0 and 17 each fail without allocating.
For n a power of two with at most 16 and a pool holding at least n-1
free slots it succeeds (the initiator gets id 0) and allocates exactly
n-1 locks: the free-slot count drops by n-1; n = 1 is accepted with
zero locks allocated. -/
theorem tournament_create_validation :
    ∀ (n : Int) (pool : List PLock),
      ((n ≤ 0 ∨ 16 < n ∨ (∀ k : Nat, n ≠ 2 ^ k)) →
        tournament_create n pool = (-1, pool)) ∧
      (tournament_create 3 pool = (-1, pool) ∧
       tournament_create 0 pool = (-1, pool) ∧
       tournament_create 17 pool = (-1, pool)) ∧
      (tournament_create 1 pool = (0, pool)) ∧
      (∀ k : Nat, n = 2 ^ k → n ≤ 16 → (n - 1).toNat ≤ freeCount pool →
        (tournament_create n pool).1 = 0 ∧
        freeCount (tournament_create n pool).2 + (n - 1).toNat = freeCount pool) := by
  intro n pool
  refine ⟨fun hrej => ?_, ⟨rfl, rfl, rfl⟩, rfl, fun k hk h16 hfree => ?_⟩
  · have hglog : n ≤ 0 → get_log2_if_power_of_2 n = -1 := fun hle => by
      rw [get_log2_if_power_of_2, if_pos hle]
    rcases hrej with hle | hgt | hnp
    · rw [tournament_create, if_neg (by omega), if_pos (hglog hle)]
    · rw [tournament_create, if_pos hgt]
    · by_cases hle : n ≤ 0
      · rw [tournament_create, if_neg (by omega), if_pos (hglog hle)]
      · by_cases hgt : 16 < n
        · rw [tournament_create, if_pos hgt]
        · have h1 : 1 ≤ n := by omega
          have h2 : n ≤ 16 := by omega
          have hg : get_log2_if_power_of_2 n = -1 := by
            interval_cases n <;>
              first
                | decide
                | exact absurd (by decide) (hnp 0)
                | exact absurd (by decide) (hnp 1)
                | exact absurd (by decide) (hnp 2)
                | exact absurd (by decide) (hnp 3)
                | exact absurd (by decide) (hnp 4)
          rw [tournament_create, if_neg hgt, if_pos hg]
  · have hk4 : k ≤ 4 := by
      by_contra hgt
      push_neg at hgt
      have h32 : (2 : Nat) ^ 5 ≤ 2 ^ k := Nat.pow_le_pow_right (by omega) hgt
      have h16n : (2 : Nat) ^ k ≤ 16 := by
        have : ((2 : Int)) ^ k ≤ 16 := by rw [← hk]; exact h16
        exact_mod_cast this
      omega
    have hgpos : get_log2_if_power_of_2 n = (k : Int) := by
      subst hk
      interval_cases k <;> decide
    have hne : ¬(get_log2_if_power_of_2 n = -1) := by
      rw [hgpos]
      omega
    have hgt : ¬(16 < n) := by omega
    obtain ⟨ids, h1, h2, h3⟩ := allocLocksLoop_spec (n - 1).toNat pool hfree
    rw [tournament_create, if_neg hgt, if_neg hne]
    rcases hrest : allocLocksLoop (n - 1).toNat pool with ⟨o, pool2⟩
    rw [hrest] at h1 h3
    simp only at h1 h3
    subst h1
    exact ⟨rfl, h3⟩

/-- Witness for the tournament-create claim: creating a 4-participant
tournament on the fresh pool succeeds and allocates exactly 3 locks. -/
theorem tournament_create_validation_witness :
    (tournament_create 4 peterson_init).1 = 0 ∧
      freeCount (tournament_create 4 peterson_init).2 + ((4 : Int) - 1).toNat
        = freeCount peterson_init :=
  (tournament_create_validation 4 peterson_init).2.2.2 2 (by decide) (by decide)
    (by decide)

lemma acquireGo_result (role : Int) :
    ∀ (envs : List PLock) (cur : PLock) (r : Int) (plF : PLock),
      acquireGo role cur envs = some (r, plF) → r = -1 ∨ r = 0 := by
  intro envs
  induction envs with
  | nil =>
    intro cur r plF h
    rw [acquireGo.eq_def] at h
    by_cases hw : waitCond cur role = true
    · by_cases ha : cur.active = false
      · simp [hw, ha] at h
        omega
      · simp [hw, ha] at h
    · by_cases ha : cur.active = false <;> simp [hw, ha] at h <;> omega
  | cons e es ih =>
    intro cur r plF h
    rw [acquireGo.eq_def] at h
    by_cases hw : waitCond cur role = true
    · by_cases ha : cur.active = false
      · simp [hw, ha] at h
        omega
      · simp [hw, ha] at h
        exact ih e r plF h
    · by_cases ha : cur.active = false <;> simp [hw, ha] at h <;> omega

lemma tournamentGo_result (L my_id numLocks : Nat) (res : Nat → Nat → Int) :
    ∀ ls : List Nat, tournamentGo L my_id numLocks res ls = -1 ∨
      tournamentGo L my_id numLocks res ls = 0 := by
  intro ls
  induction ls with
  | nil => exact Or.inr rfl
  | cons l ls ih =>
    rw [tournamentGo]
    split
    · exact Or.inl rfl
    · split
      · exact Or.inl rfl
      · exact ih

/-- C10: every operation of the pool and of the tournament library
reports every failure as the single integer -1, and every result is
either a non-negative success value or -1; the distinct error kinds the
specification names are therefore not distinguishable from the return
value alone. -/
theorem single_error_sentinel :
    (∀ pool : List PLock,
      (sys_peterson_create pool).1 = -1 ∨ 0 ≤ (sys_peterson_create pool).1) ∧
    (∀ (pool : List PLock) (h role : Int) (envs : List PLock) (r : Int)
        (pool2 : List PLock),
      sys_peterson_acquire pool h role envs = some (r, pool2) →
        r = -1 ∨ r = 0) ∧
    (∀ (pool : List PLock) (h role : Int),
      (sys_peterson_release pool h role).1 = -1 ∨
      (sys_peterson_release pool h role).1 = 0) ∧
    (∀ (pool : List PLock) (h : Int),
      (sys_peterson_destroy pool h).1 = -1 ∨
      (sys_peterson_destroy pool h).1 = 0) ∧
    (∀ (n : Int) (pool : List PLock),
      (tournament_create n pool).1 = -1 ∨ (tournament_create n pool).1 = 0) ∧
    (∀ (my_id nProcs : Int) (L numLocks : Nat) (res : Nat → Nat → Int),
      tournament_acquire_run my_id nProcs L numLocks res = -1 ∨
      tournament_acquire_run my_id nProcs L numLocks res = 0) ∧
    (∀ (my_id nProcs : Int) (L numLocks : Nat) (res : Nat → Nat → Int),
      tournament_release_run my_id nProcs L numLocks res = -1 ∨
      tournament_release_run my_id nProcs L numLocks res = 0) := by
  refine ⟨?_, ?_, ?_, ?_, ?_, ?_, ?_⟩
  · intro pool
    rcases hpa : peterson_alloc pool with _ | ip
    · rw [sys_peterson_create, hpa]
      exact Or.inl rfl
    · rw [sys_peterson_create, hpa]
      exact Or.inr (Int.natCast_nonneg ip.1)
  · intro pool h role envs r pool2 hacq
    rw [sys_peterson_acquire] at hacq
    split at hacq
    · simp at hacq
      obtain ⟨h1, h2⟩ := hacq
      omega
    · rcases hget : pool.get? h.toNat with _ | pl <;> simp only [hget] at hacq
      · simp at hacq
        obtain ⟨h1, h2⟩ := hacq
        omega
      · split at hacq
        · simp at hacq
          obtain ⟨h1, h2⟩ := hacq
          omega
        · rcases hgo : acquireGo role ((pl.setFlag role true).setTurn (1 - role))
              envs with _ | ⟨rr, plF⟩ <;> simp only [hgo] at hacq
          · simp at hacq
          · simp at hacq
            obtain ⟨h1, h2⟩ := hacq
            have h3 := acquireGo_result role envs _ rr plF hgo
            omega
  · intro pool h role
    rw [sys_peterson_release]
    split
    · exact Or.inl rfl
    · rcases hget : pool.get? h.toNat with _ | pl <;> simp [hget]
      by_cases ha : pl.active = false <;> simp [ha]
  · intro pool h
    rw [sys_peterson_destroy]
    split
    · exact Or.inl rfl
    · rcases hget : pool.get? h.toNat with _ | pl <;> simp [hget]
      by_cases ha : pl.active = false <;> simp [ha]
  · intro n pool
    rw [tournament_create]
    split
    · exact Or.inl rfl
    · split
      · exact Or.inl rfl
      · rcases hal : (allocLocksLoop (n - 1).toNat pool).1 with _ | ids <;>
          simp only [hal] <;> simp
  · intro my_id nProcs L numLocks res
    rw [tournament_acquire_run]
    split_ifs <;>
      first
        | exact Or.inl rfl
        | exact Or.inr rfl
        | exact tournamentGo_result L my_id.toNat numLocks res (List.range L).reverse
  · intro my_id nProcs L numLocks res
    rw [tournament_release_run]
    split_ifs <;>
      first
        | exact Or.inl rfl
        | exact Or.inr rfl
        | exact tournamentGo_result L my_id.toNat numLocks res (List.range L)

/-- Witness for the error-sentinel claim: an acquire with an
out-of-range handle returns exactly -1. -/
theorem single_error_sentinel_witness :
    ((-1 : Int) = -1 ∨ (-1 : Int) = 0) :=
  single_error_sentinel.2.1 [] 99 0 [] (-1) [] (by decide)

lemma petersonInv_step (s : PState) (hs : petersonInv s = true) (r : Fin 2) :
    petersonInv (stepRole r s) = true := by
  obtain ⟨f0, f1, t, p0, p1⟩ := s
  revert hs
  fin_cases r <;> fin_cases t <;> cases f0 <;> cases f1 <;> cases p0 <;>
    cases p1 <;> decide

lemma reach_petersonInv {s : PState} (h : ReachP s) : petersonInv s = true := by
  induction h with
  | init => decide
  | step r _ ih => exact petersonInv_step _ ih r

/-- The `idle` step writes to the slot exactly what the entry section of
`sys_peterson_acquire` writes: flag of the role set, then turn set to
1 - role. -/
lemma stepRole_idle_writes (s : PState) (r : Fin 2) (h : pcOf s r = PC.idle) :
    toLock (stepRole r s)
      = ((toLock s).setFlag ((r : Nat) : Int) true).setTurn
          (1 - ((r : Nat) : Int)) := by
  obtain ⟨f0, f1, t, p0, p1⟩ := s
  revert h
  fin_cases r <;> fin_cases t <;> cases f0 <;> cases f1 <;> cases p0 <;>
    cases p1 <;> decide

/-- The `waiting` step never writes to the slot. -/
lemma stepRole_waiting_writes (s : PState) (r : Fin 2)
    (h : pcOf s r = PC.waiting) : toLock (stepRole r s) = toLock s := by
  obtain ⟨f0, f1, t, p0, p1⟩ := s
  revert h
  fin_cases r <;> fin_cases t <;> cases f0 <;> cases f1 <;> cases p0 <;>
    cases p1 <;> decide

/-- The `crit` step writes to the slot exactly what
`sys_peterson_release` writes: the role's flag cleared. -/
lemma stepRole_crit_writes (s : PState) (r : Fin 2) (h : pcOf s r = PC.crit) :
    toLock (stepRole r s) = (toLock s).setFlag ((r : Nat) : Int) false := by
  obtain ⟨f0, f1, t, p0, p1⟩ := s
  revert h
  fin_cases r <;> fin_cases t <;> cases f0 <;> cases f1 <;> cases p0 <;>
    cases p1 <;> decide

/-- C1: two-party mutual exclusion.  For every interleaving of the two
contexts executing the Peterson acquire/release protocol on an active
slot, it is never the case that both are simultaneously past a
successful acquire and before their release. -/
theorem peterson_mutual_exclusion :
    ∀ s : PState, ReachP s → ¬(s.pc0 = PC.crit ∧ s.pc1 = PC.crit) := by
  intro s hs
  have hinv := reach_petersonInv hs
  obtain ⟨f0, f1, t, p0, p1⟩ := s
  revert hinv
  fin_cases t <;> cases f0 <;> cases f1 <;> cases p0 <;> cases p1 <;> decide

/-- Witness for the mutual-exclusion claim at the initial state. -/
theorem peterson_mutual_exclusion_witness :
    ¬(initPState.pc0 = PC.crit ∧ initPState.pc1 = PC.crit) :=
  peterson_mutual_exclusion initPState ReachP.init

example : firstInactive peterson_init = some 0 := by decide

example : (sys_peterson_create peterson_init).1 = 0 := by decide

example : sys_peterson_destroy peterson_init 3 = (-1, peterson_init) := by decide

example : (sys_peterson_release (sys_peterson_create peterson_init).2 0 0).1 = 0 := by decide

example : sys_peterson_acquire (sys_peterson_create peterson_init).2 0 0 [] =
    some (0, peterson_init.set 0 { allocReset with flag0 := true, turn := 1 }) := by decide
